import Mathlib

/-!
Shallow embedding of the mathtype notebook line store, section
partitioning, context extraction, feedback reconciliation, JSON
import/export and the two API-route validation gates, translated from
`src/app/components/MathNotebook/MathNotebook.tsx`,
`src/app/api/hint/route.ts` and the check-reasoning route.

JavaScript `Map`s are modelled as association lists with `Map` update
semantics (set replaces in place, delete removes the keyed entry);
JavaScript array indexing that may go out of range is modelled with
`Option`.
-/

namespace Mathtype

/-- Line mode, from `types.ts` and the `validModes` list of `importJSON`:
`"math" | "text" | "header" | "image" | "break"`.  The `break` mode is
named `brk` here because `break` is a Lean keyword. -/
inductive LineMode where
  | math
  | text
  | header
  | image
  | brk
deriving DecidableEq, Repr

/-- A notebook line, from `interface MathLine` in `types.ts`. -/
structure MathLine where
  id : String
  content : String
  mode : LineMode
  isProblem : Bool
deriving DecidableEq, Repr

/-- One entry of the `issues` list of a check-reasoning response:
`{ stepIndex, latex }`.  `stepIndex` is an arbitrary JSON number used as
a (possibly out-of-range, possibly negative) array index, so it is an
`Int`; `latex` may be absent. -/
structure Issue where
  stepIndex : Int
  latex : Option String
deriving DecidableEq, Repr

/-- Feedback status: `"ok" | "issue"`. -/
inductive FeedbackStatus where
  | ok
  | issue
deriving DecidableEq, Repr

/-- LLM feedback object, from `interface LLMFeedback` in `types.ts`
plus the `issues` list the controller reads at runtime. -/
structure LLMFeedback where
  status : FeedbackStatus
  stepIndex : Option Int
  latex : Option String
  issues : Option (List Issue)
deriving DecidableEq, Repr

/-- A problem-context line as sent to the API: `{ mode, content }`. -/
structure ProblemLine where
  mode : LineMode
  content : String
deriving DecidableEq, Repr

/-- A work line as sent to the API: `{ mode, content, lineId }`. -/
structure UserLine where
  mode : LineMode
  content : String
  lineId : String
deriving DecidableEq, Repr

/-- JavaScript `Map` with string keys, modelled as an association list. -/
abbrev JsMap (α : Type) := List (String × α)

/-- `Map.prototype.get`: the value of the (unique) entry keyed `k`. -/
def mapGet {α : Type} (m : JsMap α) (k : String) : Option α :=
  match m with
  | [] => none
  | (k', v) :: rest => if k' = k then some v else mapGet rest k

/-- `Map.prototype.set`: replaces the keyed entry in place, else appends. -/
def mapSet {α : Type} (m : JsMap α) (k : String) (v : α) : JsMap α :=
  match m with
  | [] => [(k, v)]
  | (k', v') :: rest =>
      if k' = k then (k, v) :: rest else (k', v') :: mapSet rest k v

/-- `Map.prototype.delete`: removes the entry keyed `k`. -/
def mapDelete {α : Type} (m : JsMap α) (k : String) : JsMap α :=
  match m with
  | [] => []
  | (k', v) :: rest =>
      if k' = k then mapDelete rest k else (k', v) :: mapDelete rest k

/-- JavaScript `arr[i]` for an index that may be negative or out of
range (yields `undefined`, i.e. `none`). -/
def jsIndex {α : Type} (l : List α) (i : Int) : Option α :=
  if i < 0 then none else l[i.toNat]?

/-- JavaScript `arr.slice(s, e)` for non-negative bounds. -/
def jsSlice {α : Type} (l : List α) (s e : Nat) : List α :=
  (l.drop s).take (e - s)

/-- `lines[i]` exists and has mode `break` (used by the two scan loops
of `getSectionBounds`). -/
def isBreakAt (lines : List MathLine) (i : Nat) : Bool :=
  match lines[i]? with
  | some l => decide (l.mode = LineMode.brk)
  | none => false

/-- Backward scan of `getSectionBounds`: `for (i = lineIndex; i >= 0; i--)
if (lines[i].mode === "break") { start = i + 1; break }`, default 0. -/
def scanBack (lines : List MathLine) : Nat → Nat
  | 0 => if isBreakAt lines 0 then 1 else 0
  | i + 1 => if isBreakAt lines (i + 1) then i + 2 else scanBack lines i

/-- Forward scan of `getSectionBounds`, fuelled by the number of
remaining indices: `for (i; i < lines.length; i++) if (lines[i].mode ===
"break") { end = i; break }`, default `lines.length`. -/
def scanFwdAux (lines : List MathLine) : Nat → Nat → Nat
  | 0, _ => lines.length
  | d + 1, i => if isBreakAt lines i then i else scanFwdAux lines d (i + 1)

/-- Forward scan of `getSectionBounds` starting at index `i`. -/
def scanFwd (lines : List MathLine) (i : Nat) : Nat :=
  scanFwdAux lines (lines.length - i) i

/-- `getSectionBounds` from `MathNotebook.tsx`: the half-open index
range of the section containing `lineIndex`. -/
def getSectionBounds (lines : List MathLine) (lineIndex : Nat) : Nat × Nat :=
  (scanBack lines lineIndex, scanFwd lines (lineIndex + 1))

/-- Result record of `getSectionLines`. -/
structure SectionLines where
  problemLines : List ProblemLine
  userLines : List UserLine
  sectionStart : Nat
  sectionEnd : Nat
  hints : List (String × String)
  feedback : List (String × LLMFeedback)
deriving DecidableEq, Repr

/-- Filter used for `userLines` in `getSectionLines`:
`!l.isProblem && l.mode !== "header" && l.mode !== "break"`. -/
def isUserLine (l : MathLine) : Bool :=
  !l.isProblem && decide (l.mode ≠ LineMode.header)
    && decide (l.mode ≠ LineMode.brk)

/-- `getSectionLines` from `MathNotebook.tsx`: context extraction for a
check or hint request, over the slice of the enclosing section up to
`upToIndex` inclusive.  A hint is collected only when truthy
(non-empty), mirroring `if (hint)`. -/
def getSectionLines (lines : List MathLine) (hintMap : JsMap String)
    (feedbackMap : JsMap LLMFeedback) (upToIndex : Nat) : SectionLines :=
  let b := getSectionBounds lines upToIndex
  let relevantLines := jsSlice lines b.1 (upToIndex + 1)
  { problemLines :=
      (relevantLines.filter (·.isProblem)).map fun l => ⟨l.mode, l.content⟩
    userLines :=
      (relevantLines.filter isUserLine).map fun l => ⟨l.mode, l.content, l.id⟩
    sectionStart := b.1
    sectionEnd := b.2
    hints := relevantLines.filterMap fun l =>
      match mapGet hintMap l.id with
      | some h => if h = "" then none else some (l.id, h)
      | none => none
    feedback := relevantLines.filterMap fun l =>
      (mapGet feedbackMap l.id).map fun fb => (l.id, fb) }

/-- `handleDeleteLine` from `MathNotebook.tsx`: deleting the only
remaining line replaces it with a fresh empty text line (`newId` stands
for the `generateId()` call); otherwise the line at `index` is spliced
out. -/
def handleDeleteLine (lines : List MathLine) (index : Nat) (newId : String) :
    List MathLine :=
  if lines.length = 1 then
    [⟨newId, "", LineMode.text, false⟩]
  else
    lines.take index ++ lines.drop (index + 1)

/-- One step of the feedback-clearing loop of `handleCheckReasoning`:
`next.delete(lines[i].id)`. -/
def clearAt (lines : List MathLine) (m : JsMap LLMFeedback) (i : Nat) :
    JsMap LLMFeedback :=
  match lines[i]? with
  | some l => mapDelete m l.id
  | none => m

/-- The clearing loop `for (i = sectionStart; i < sectionEnd; i++)
next.delete(lines[i].id)`, fuelled by the number of remaining
indices. -/
def clearSectionAux (lines : List MathLine) :
    Nat → Nat → JsMap LLMFeedback → JsMap LLMFeedback
  | 0, _, m => m
  | d + 1, i, m => clearSectionAux lines d (i + 1) (clearAt lines m i)

/-- Clears all feedback keyed to lines with index in `[s, e)`. -/
def clearSection (lines : List MathLine) (s e : Nat)
    (m : JsMap LLMFeedback) : JsMap LLMFeedback :=
  clearSectionAux lines (e - s) s m

/-- One iteration of the issue loop of `handleCheckReasoning`:
`const errorLineId = userLines[issue.stepIndex - 1]?.lineId;
if (errorLineId) next.set(errorLineId, {status:"issue", latex:issue.latex})`.
An unresolvable step index, or an empty (falsy) line id, leaves the map
unchanged. -/
def applyIssue (userLines : List UserLine) (m : JsMap LLMFeedback)
    (issue : Issue) : JsMap LLMFeedback :=
  match jsIndex userLines (issue.stepIndex - 1) with
  | some ul =>
      if ul.lineId = "" then m
      else mapSet m ul.lineId ⟨FeedbackStatus.issue, none, issue.latex, none⟩
  | none => m

/-- The line id an issue resolves to, if any: `some id` exactly when
`userLines[issue.stepIndex - 1]?.lineId` is truthy in `applyIssue`
(specification-side reading of the same decision, used to state
properties of the issue loop). -/
def issueTarget (userLines : List UserLine) (issue : Issue) : Option String :=
  match jsIndex userLines (issue.stepIndex - 1) with
  | some ul => if ul.lineId = "" then none else some ul.lineId
  | none => none

/-- The issue loop `for (const issue of data.issues) ...`. -/
def applyIssues (userLines : List UserLine) (issues : List Issue)
    (m : JsMap LLMFeedback) : JsMap LLMFeedback :=
  issues.foldl (applyIssue userLines) m

/-- The `setFeedbackMap` updater of `handleCheckReasoning`: clear all
feedback of the enclosing section (full bounds, computed from the lines
captured at call start), then either mark the clicked target line `ok`
or attach an issue entry per resolvable issue. -/
def applyCheckResponse (capturedLines : List MathLine) (ctx : SectionLines)
    (targetId : String) (data : LLMFeedback) (prev : JsMap LLMFeedback) :
    JsMap LLMFeedback :=
  let next := clearSection capturedLines ctx.sectionStart ctx.sectionEnd prev
  match data.status with
  | FeedbackStatus.ok => mapSet next targetId data
  | FeedbackStatus.issue =>
      match data.issues with
      | some issues =>
          if issues.isEmpty then next
          else applyIssues ctx.userLines issues next
      | none => next

/-- Outcome of one `handleCheckReasoning` invocation: the resulting
feedback map, whether the `/api/check-reasoning` request was issued at
all, and the final `checkingLineId` (always reset to `null`). -/
structure CheckResult where
  feedback : JsMap LLMFeedback
  madeRequest : Bool
  checkingLineId : Option String
deriving DecidableEq, Repr

/-- `handleCheckReasoning` from `MathNotebook.tsx`, at the level of its
observable state transitions.  `capturedLines`, `hintMap` and
`capturedFeedback` are the component state captured when the handler
runs; `response` is the parsed body of a successful HTTP response
(`none` models a failed fetch, a non-ok status, or a thrown error, all
of which leave the feedback map unchanged); `prevFeedback` is the
feedback map at the time the `setFeedbackMap` updater executes (it may
differ from `capturedFeedback` if the user acted while the call was in
flight). -/
def handleCheckReasoning (capturedLines : List MathLine)
    (hintMap : JsMap String) (capturedFeedback : JsMap LLMFeedback)
    (upToIndex : Nat) (response : Option LLMFeedback)
    (prevFeedback : JsMap LLMFeedback) : CheckResult :=
  match capturedLines[upToIndex]? with
  | none => ⟨prevFeedback, false, none⟩
  | some targetLine =>
      let ctx := getSectionLines capturedLines hintMap capturedFeedback upToIndex
      if ctx.userLines.isEmpty then ⟨prevFeedback, false, none⟩
      else
        match response with
        | none => ⟨prevFeedback, true, none⟩
        | some data =>
            ⟨applyCheckResponse capturedLines ctx targetLine.id data prevFeedback,
             true, none⟩

/-- A dynamically-typed JSON field value, as inspected by the `typeof`
and `validModes.includes` checks of `importJSON`.  `other` covers an
absent field, `null`, numbers, objects — anything that is neither a
string nor a boolean. -/
inductive JVal where
  | str (s : String)
  | bool (b : Bool)
  | other
deriving DecidableEq, Repr

/-- One element of the parsed `data.lines` array. -/
structure RawLine where
  id : JVal
  content : JVal
  mode : JVal
  isProblem : JVal
deriving DecidableEq, Repr

/-- The parsed import payload.  `lines = none` models a missing or
non-array `lines` field; `hints`/`feedback` are `none` when the field
is absent or not a truthy object. -/
structure ImportData where
  lines : Option (List RawLine)
  hints : Option (JsMap String)
  feedback : Option (JsMap LLMFeedback)
deriving DecidableEq, Repr

/-- The `validModes.includes(line.mode)` check plus the implicit
narrowing to `LineMode` when the validated line is pushed. -/
def parseMode (s : String) : Option LineMode :=
  if s = "math" then some LineMode.math
  else if s = "text" then some LineMode.text
  else if s = "header" then some LineMode.header
  else if s = "image" then some LineMode.image
  else if s = "break" then some LineMode.brk
  else none

/-- Serialization of a mode back to its JSON string. -/
def modeToString : LineMode → String
  | LineMode.math => "math"
  | LineMode.text => "text"
  | LineMode.header => "header"
  | LineMode.image => "image"
  | LineMode.brk => "break"

/-- Per-line validation of `importJSON`: the id must be a non-empty
string (`typeof line.id !== "string" || !line.id`), the content a
string, the mode one of the five allowed values; a non-boolean
`isProblem` defaults to `false`. -/
def validateLine (l : RawLine) : Option MathLine :=
  match l.id with
  | JVal.str s =>
      if s = "" then none
      else
        match l.content with
        | JVal.str c =>
            match l.mode with
            | JVal.str ms =>
                (parseMode ms).map fun mo =>
                  ⟨s, c, mo,
                   match l.isProblem with
                   | JVal.bool b => b
                   | _ => false⟩
            | _ => none
        | _ => none
  | _ => none

/-- The validation loop of `importJSON`: validates each line in order,
failing on the first invalid one (the `throw` into the catch block). -/
def validateLines : List RawLine → Option (List MathLine)
  | [] => some []
  | r :: rs =>
      match validateLine r with
      | none => none
      | some m =>
          match validateLines rs with
          | none => none
          | some ms => some (m :: ms)

/-- The notebook state touched by import/export: the line store and the
hint and feedback maps. -/
structure NotebookState where
  lines : List MathLine
  hintMap : JsMap String
  feedbackMap : JsMap LLMFeedback
deriving DecidableEq, Repr

/-- The state installed by the catch-all failure path of `importJSON`: one fresh
empty text line, hints and feedback cleared. -/
def fallbackState (freshId : String) : NotebookState :=
  ⟨[⟨freshId, "", LineMode.text, false⟩], [], []⟩

/-- `importJSON` from `MathNotebook.tsx`.  `input = none` models a
`JSON.parse` failure.  Any validation failure throws into the catch
block, which resets to `fallbackState freshId`; on success the
validated lines are installed and the hints/feedback maps are restored
(or cleared when absent). -/
def importJSON (input : Option ImportData) (freshId : String) :
    NotebookState :=
  match input with
  | none => fallbackState freshId
  | some data =>
      match data.lines with
      | none => fallbackState freshId
      | some rawLines =>
          if rawLines.isEmpty then fallbackState freshId
          else
            match validateLines rawLines with
            | none => fallbackState freshId
            | some validatedLines =>
                ⟨validatedLines, data.hints.getD [], data.feedback.getD []⟩

/-- `exportJSON` from `MathNotebook.tsx`, at the level of the JSON
object it serializes: every line with its id, content, mode string and
isProblem flag, plus the two maps. -/
def exportJSON (st : NotebookState) : ImportData :=
  { lines := some (st.lines.map fun l =>
      ⟨JVal.str l.id, JVal.str l.content, JVal.str (modeToString l.mode),
       JVal.bool l.isProblem⟩)
    hints := some st.hintMap
    feedback := some st.feedbackMap }

/-- Parsed body of a check-reasoning request; a field is `none` when it
is missing or not an array (`!body.x || !Array.isArray(body.x)`). -/
structure CheckRequestBody where
  problemLines : Option (List ProblemLine)
  userLines : Option (List UserLine)
  hints : Option (JsMap String)
deriving DecidableEq, Repr

/-- Parsed body of a hint request. -/
structure HintRequestBody where
  problemLines : Option (List ProblemLine)
  userLines : Option (List UserLine)
deriving DecidableEq, Repr

/-- Where a route handler ends up before any upstream response is seen:
an early error response (message and HTTP status), or the OpenAI call
is issued. -/
inductive RouteResult where
  | error (msg : String) (status : Nat)
  | upstreamCall
deriving DecidableEq, Repr

/-- The `POST` handler of the check-reasoning route
(`src/unnamed/part_001`), up to the point where the OpenAI request is
made.  `body = none` models a request body that fails `request.json()`. -/
def checkReasoningPOST (hasApiKey : Bool) (body : Option CheckRequestBody) :
    RouteResult :=
  if !hasApiKey then RouteResult.error ("OpenAI API key not configured") 500
  else
    match body with
    | none => RouteResult.error ("Invalid JSON in request body") 400
    | some b =>
        match b.problemLines with
        | none => RouteResult.error ("Missing or invalid problemLines array") 400
        | some _ =>
            match b.userLines with
            | none => RouteResult.error ("Missing or invalid userLines array") 400
            | some uls =>
                if uls.isEmpty then
                  RouteResult.error ("No user lines to evaluate") 400
                else RouteResult.upstreamCall

/-- The `POST` handler of `src/app/api/hint/route.ts`, up to the point
where the OpenAI request is made.  Unlike check-reasoning it has no
empty-`userLines` rejection. -/
def hintPOST (hasApiKey : Bool) (body : Option HintRequestBody) :
    RouteResult :=
  if !hasApiKey then RouteResult.error ("OpenAI API key not configured") 500
  else
    match body with
    | none => RouteResult.error ("Invalid JSON in request body") 400
    | some b =>
        match b.problemLines with
        | none => RouteResult.error ("Missing or invalid problemLines array") 400
        | some _ =>
            match b.userLines with
            | none => RouteResult.error ("Missing or invalid userLines array") 400
            | some _ => RouteResult.upstreamCall

/-- A small concrete document used by witnesses: a header, a problem
line, a work line, a section break, and a work line in the next
section (the context-extraction scenario document). -/
def sampleDoc : List MathLine :=
  [⟨"a", "H", LineMode.header, false⟩,
   ⟨"b", "Given: x=2", LineMode.text, true⟩,
   ⟨"c", "y=x+1", LineMode.math, false⟩,
   ⟨"d", "", LineMode.brk, false⟩,
   ⟨"e", "z=10", LineMode.math, false⟩]

/-- A concrete document of three work lines in a single section, used
by witnesses for the check-reasoning reconciliation. -/
def checkDoc : List MathLine :=
  [⟨"w1", "s1", LineMode.math, false⟩,
   ⟨"w2", "s2", LineMode.math, false⟩,
   ⟨"w3", "s3", LineMode.math, false⟩]

/-! ### Lemmas about the `Map` model -/

theorem mapGet_set_self {α : Type} (m : JsMap α) (k : String) (v : α) :
    mapGet (mapSet m k v) k = some v := by
  induction m with
  | nil => simp [mapGet, mapSet]
  | cons hd tl ih =>
      obtain ⟨k0, v0⟩ := hd
      by_cases hk : k0 = k <;> simp [mapGet, mapSet, hk, ih]

theorem mapGet_set_ne {α : Type} (m : JsMap α) (k k' : String) (v : α)
    (h : k' ≠ k) : mapGet (mapSet m k v) k' = mapGet m k' := by
  induction m with
  | nil => simp [mapGet, mapSet, Ne.symm h]
  | cons hd tl ih =>
      obtain ⟨k0, v0⟩ := hd
      by_cases hk : k0 = k
      · subst hk
        simp [mapGet, mapSet, Ne.symm h]
      · simp [mapGet, mapSet, hk, ih]

theorem mapGet_delete_self {α : Type} (m : JsMap α) (k : String) :
    mapGet (mapDelete m k) k = none := by
  induction m with
  | nil => simp [mapGet, mapDelete]
  | cons hd tl ih =>
      obtain ⟨k0, v0⟩ := hd
      by_cases hk : k0 = k <;> simp [mapGet, mapDelete, hk, ih]

theorem mapGet_delete_ne {α : Type} (m : JsMap α) (k k' : String)
    (h : k' ≠ k) : mapGet (mapDelete m k) k' = mapGet m k' := by
  induction m with
  | nil => simp [mapGet, mapDelete]
  | cons hd tl ih =>
      obtain ⟨k0, v0⟩ := hd
      by_cases hk : k0 = k
      · subst hk
        simp [mapGet, mapDelete, Ne.symm h, ih]
      · simp [mapGet, mapDelete, hk, ih]

/-! ### Lemmas about the section scans -/

theorem scanBack_le (lines : List MathLine) (i : Nat) :
    scanBack lines i ≤ i + 1 := by
  induction i with
  | zero => simp only [scanBack]; split <;> omega
  | succ n ih =>
      simp only [scanBack]; split
      · omega
      · omega

theorem scanBack_le_self (lines : List MathLine) (i : Nat)
    (h : isBreakAt lines i = false) : scanBack lines i ≤ i := by
  cases i with
  | zero => simp [scanBack, h]
  | succ n =>
      have := scanBack_le lines n
      simp only [scanBack, h]
      simpa using this

theorem scanBack_no_break (lines : List MathLine) (i : Nat) :
    ∀ j, scanBack lines i ≤ j → j ≤ i → isBreakAt lines j = false := by
  induction i with
  | zero =>
      intro j h1 h2
      by_cases hb : isBreakAt lines 0 = true
      · simp [scanBack, hb] at h1; omega
      · have : j = 0 := by omega
        subst this
        simpa using hb
  | succ n ih =>
      intro j h1 h2
      by_cases hb : isBreakAt lines (n + 1) = true
      · simp [scanBack, hb] at h1; omega
      · simp only [scanBack, hb, if_false] at h1
        rcases Nat.lt_or_ge j (n + 1) with hj | hj
        · exact ih j h1 (by omega)
        · have : j = n + 1 := by omega
          subst this
          simpa using hb

theorem scanBack_zero_or_break (lines : List MathLine) (i : Nat) :
    scanBack lines i = 0 ∨ isBreakAt lines (scanBack lines i - 1) = true := by
  induction i with
  | zero =>
      by_cases hb : isBreakAt lines 0 = true
      · right; simp [scanBack, hb]
      · left; simp [scanBack, hb]
  | succ n ih =>
      by_cases hb : isBreakAt lines (n + 1) = true
      · right; simp [scanBack, hb]
      · simp only [scanBack, hb, if_false]
        exact ih

theorem scanFwdAux_spec (lines : List MathLine) :
    ∀ d i, i + d = lines.length →
      i ≤ scanFwdAux lines d i ∧ scanFwdAux lines d i ≤ lines.length ∧
      (∀ j, i ≤ j → j < scanFwdAux lines d i → isBreakAt lines j = false) ∧
      (scanFwdAux lines d i = lines.length ∨
        isBreakAt lines (scanFwdAux lines d i) = true) := by
  intro d
  induction d with
  | zero =>
      intro i h
      have hz : scanFwdAux lines 0 i = lines.length := rfl
      rw [hz]
      exact ⟨by omega, le_refl _, fun j h1 h2 => by omega, Or.inl rfl⟩
  | succ n ih =>
      intro i h
      by_cases hb : isBreakAt lines i = true
      · have hz : scanFwdAux lines (n + 1) i = i := by
          simp [scanFwdAux, hb]
        rw [hz]
        exact ⟨le_refl _, by omega, fun j h1 h2 => by omega, Or.inr hb⟩
      · have hb' : isBreakAt lines i = false := by
          simpa using hb
        have hz : scanFwdAux lines (n + 1) i = scanFwdAux lines n (i + 1) := by
          simp [scanFwdAux, hb']
        rw [hz]
        obtain ⟨ih1, ih2, ih3, ih4⟩ := ih (i + 1) (by omega)
        refine ⟨by omega, ih2, ?_, ih4⟩
        intro j h1 h2
        rcases Nat.lt_or_ge j (i + 1) with hj | hj
        · have : j = i := by omega
          subst this
          exact hb'
        · exact ih3 j hj h2

theorem scanFwd_spec (lines : List MathLine) (i : Nat) (h : i ≤ lines.length) :
    i ≤ scanFwd lines i ∧ scanFwd lines i ≤ lines.length ∧
    (∀ j, i ≤ j → j < scanFwd lines i → isBreakAt lines j = false) ∧
    (scanFwd lines i = lines.length ∨
      isBreakAt lines (scanFwd lines i) = true) :=
  scanFwdAux_spec lines (lines.length - i) i (by omega)

theorem isBreakAt_false_mode (lines : List MathLine) (j : Nat) (l : MathLine)
    (hg : lines[j]? = some l) (hb : isBreakAt lines j = false) :
    l.mode ≠ LineMode.brk := by
  simp only [isBreakAt, hg] at hb
  simpa using hb

theorem isBreakAt_true_mode (lines : List MathLine) (j : Nat)
    (hb : isBreakAt lines j = true) :
    ∃ l, lines[j]? = some l ∧ l.mode = LineMode.brk := by
  simp only [isBreakAt] at hb
  cases hg : lines[j]? with
  | none => simp [hg] at hb
  | some l =>
      refine ⟨l, rfl, ?_⟩
      simp [hg] at hb
      exact hb

/-! ### Lemmas about the extracted slice -/

theorem jsSlice_upto_eq (lines : List MathLine) (i : Nat) :
    jsSlice lines (scanBack lines i) (i + 1) =
      (lines.take (i + 1)).drop (scanBack lines i) := by
  have hs := scanBack_le lines i
  have hsum : scanBack lines i + (i + 1 - scanBack lines i) = i + 1 := by
    omega
  unfold jsSlice
  rw [List.take_drop, hsum]

theorem mem_jsSlice_upto (lines : List MathLine) (i : Nat) (l : MathLine)
    (h : l ∈ jsSlice lines (scanBack lines i) (i + 1)) :
    ∃ j, scanBack lines i ≤ j ∧ j ≤ i ∧ lines[j]? = some l := by
  rw [jsSlice_upto_eq] at h
  obtain ⟨t, ht, hget⟩ := List.getElem_of_mem h
  have hdlen := List.length_drop (scanBack lines i) (lines.take (i + 1))
  have htlen := List.length_take (i + 1) lines
  have hlt : scanBack lines i + t < (lines.take (i + 1)).length := by omega
  refine ⟨scanBack lines i + t, by omega, by omega, ?_⟩
  have h1 : ((lines.take (i + 1)).drop (scanBack lines i))[t]? = some l := by
    rw [List.getElem?_eq_getElem ht, hget]
  rw [List.getElem?_drop] at h1
  rwa [List.getElem?_take_of_lt (by omega)] at h1

theorem mem_jsSlice_upto_not_break (lines : List MathLine) (i : Nat)
    (l : MathLine) (h : l ∈ jsSlice lines (scanBack lines i) (i + 1)) :
    l.mode ≠ LineMode.brk := by
  obtain ⟨j, h1, h2, h3⟩ := mem_jsSlice_upto lines i l h
  exact isBreakAt_false_mode lines j l h3 (scanBack_no_break lines i j h1 h2)

/-! ### Lemmas about the feedback-clearing loop -/

theorem clearSectionAux_get_none (lines : List MathLine) (d : Nat) :
    ∀ i m id, mapGet m id = none →
      mapGet (clearSectionAux lines d i m) id = none := by
  induction d with
  | zero => intro i m id h; exact h
  | succ n ih =>
      intro i m id h
      apply ih
      unfold clearAt
      cases hg : lines[i]? with
      | none => exact h
      | some l =>
          by_cases he : id = l.id
          · rw [he]; exact mapGet_delete_self m l.id
          · rw [mapGet_delete_ne m l.id id he]; exact h

theorem clearSectionAux_get_of_not_hit (lines : List MathLine) (d : Nat) :
    ∀ i m id, (∀ j l, i ≤ j → j < i + d → lines[j]? = some l → l.id ≠ id) →
      mapGet (clearSectionAux lines d i m) id = mapGet m id := by
  induction d with
  | zero => intro i m id _; rfl
  | succ n ih =>
      intro i m id h
      have step : mapGet (clearAt lines m i) id = mapGet m id := by
        unfold clearAt
        cases hg : lines[i]? with
        | none => rfl
        | some l =>
            exact mapGet_delete_ne m l.id id
              (Ne.symm (h i l (le_refl i) (by omega) hg))
      calc mapGet (clearSectionAux lines (n + 1) i m) id
      _ = mapGet (clearSectionAux lines n (i + 1) (clearAt lines m i)) id :=
        rfl
      _ = mapGet (clearAt lines m i) id := by
        apply ih
        intro j l hj1 hj2 hg
        exact h j l (by omega) (by omega) hg
      _ = mapGet m id := step

theorem clearSectionAux_get_hit (lines : List MathLine) (d : Nat) :
    ∀ i m j l, i ≤ j → j < i + d → lines[j]? = some l →
      mapGet (clearSectionAux lines d i m) l.id = none := by
  induction d with
  | zero => intro i m j l h1 h2 _; omega
  | succ n ih =>
      intro i m j l h1 h2 hg
      by_cases hij : j = i
      · subst hij
        have h0 : mapGet (clearAt lines m j) l.id = none := by
          unfold clearAt
          rw [hg]
          exact mapGet_delete_self m l.id
        exact clearSectionAux_get_none lines n (j + 1) (clearAt lines m j)
          l.id h0
      · exact ih (i + 1) (clearAt lines m i) j l (by omega) (by omega) hg

theorem clearSection_get_hit (lines : List MathLine) (s e : Nat)
    (m : JsMap LLMFeedback) (j : Nat) (l : MathLine)
    (h1 : s ≤ j) (h2 : j < e) (hg : lines[j]? = some l) :
    mapGet (clearSection lines s e m) l.id = none :=
  clearSectionAux_get_hit lines (e - s) s m j l h1 (by omega) hg

theorem clearSection_get_of_not_hit (lines : List MathLine) (s e : Nat)
    (m : JsMap LLMFeedback) (id : String)
    (h : ∀ j l, s ≤ j → j < e → lines[j]? = some l → l.id ≠ id) :
    mapGet (clearSection lines s e m) id = mapGet m id := by
  apply clearSectionAux_get_of_not_hit
  intro j l h1 h2 hg
  exact h j l h1 (by omega) hg

/-! ### Lemmas about the issue loop -/

theorem applyIssue_of_target_none (uls : List UserLine)
    (m : JsMap LLMFeedback) (issue : Issue)
    (h : issueTarget uls issue = none) : applyIssue uls m issue = m := by
  unfold issueTarget at h
  unfold applyIssue
  cases hj : jsIndex uls (issue.stepIndex - 1) with
  | none => rfl
  | some ul =>
      rw [hj] at h
      by_cases he : ul.lineId = ""
      · simp [he]
      · simp [he] at h

theorem applyIssue_get_of_eq (uls : List UserLine) (m : JsMap LLMFeedback)
    (issue : Issue) (id : String) (h : issueTarget uls issue = some id) :
    mapGet (applyIssue uls m issue) id =
      some ⟨FeedbackStatus.issue, none, issue.latex, none⟩ := by
  cases hj : jsIndex uls (issue.stepIndex - 1) with
  | none => simp [issueTarget, hj] at h
  | some ul =>
      simp only [issueTarget, hj] at h
      simp only [applyIssue, hj]
      by_cases he : ul.lineId = ""
      · rw [if_pos he] at h
        exact absurd h (by simp)
      · rw [if_neg he] at h
        rw [if_neg he, ← Option.some.inj h]
        exact mapGet_set_self m ul.lineId _

theorem applyIssue_get_of_ne (uls : List UserLine) (m : JsMap LLMFeedback)
    (issue : Issue) (id : String) (h : issueTarget uls issue ≠ some id) :
    mapGet (applyIssue uls m issue) id = mapGet m id := by
  cases hj : jsIndex uls (issue.stepIndex - 1) with
  | none => simp [applyIssue, hj]
  | some ul =>
      simp only [issueTarget, hj] at h
      simp only [applyIssue, hj]
      by_cases he : ul.lineId = ""
      · rw [if_pos he]
      · rw [if_neg he] at h
        rw [if_neg he]
        refine mapGet_set_ne m ul.lineId id _ ?_
        intro hi
        exact h (by rw [hi])

theorem applyIssues_get_of_forall_ne (uls : List UserLine)
    (issues : List Issue) :
    ∀ m id, (∀ issue ∈ issues, issueTarget uls issue ≠ some id) →
      mapGet (applyIssues uls issues m) id = mapGet m id := by
  induction issues with
  | nil => intro m id _; rfl
  | cons a as ih =>
      intro m id h
      calc mapGet (applyIssues uls (a :: as) m) id
      _ = mapGet (applyIssues uls as (applyIssue uls m a)) id := rfl
      _ = mapGet (applyIssue uls m a) id :=
        ih _ id fun issue hm => h issue (List.mem_cons_of_mem a hm)
      _ = mapGet m id :=
        applyIssue_get_of_ne uls m a id (h a (List.mem_cons_self a as))

theorem applyIssues_preserves_issue (uls : List UserLine)
    (issues : List Issue) :
    ∀ m id, (∃ fb, mapGet m id = some fb ∧ fb.status = FeedbackStatus.issue) →
      ∃ fb, mapGet (applyIssues uls issues m) id = some fb ∧
        fb.status = FeedbackStatus.issue := by
  induction issues with
  | nil => intro m id h; exact h
  | cons a as ih =>
      intro m id h
      apply ih
      by_cases ht : issueTarget uls a = some id
      · exact ⟨_, applyIssue_get_of_eq uls m a id ht, rfl⟩
      · rw [applyIssue_get_of_ne uls m a id ht]
        exact h

theorem applyIssues_get_of_mem (uls : List UserLine) (issues : List Issue)
    (issue : Issue) (id : String) (hmem : issue ∈ issues)
    (ht : issueTarget uls issue = some id) :
    ∀ m, ∃ fb, mapGet (applyIssues uls issues m) id = some fb ∧
      fb.status = FeedbackStatus.issue := by
  induction issues with
  | nil => exact absurd hmem (List.not_mem_nil issue)
  | cons a as ih =>
      intro m
      rcases List.mem_cons.mp hmem with rfl | hmem'
      · exact applyIssues_preserves_issue uls as (applyIssue uls m issue) id
          ⟨_, applyIssue_get_of_eq uls m issue id ht, rfl⟩
      · exact ih hmem' _

theorem applyIssues_filter_resolvable (uls : List UserLine)
    (issues : List Issue) :
    ∀ m, applyIssues uls issues m =
      applyIssues uls
        (issues.filter fun issue => (issueTarget uls issue).isSome) m := by
  induction issues with
  | nil => intro m; rfl
  | cons a as ih =>
      intro m
      by_cases ht : (issueTarget uls a).isSome = true
      · have hf : (a :: as).filter (fun issue => (issueTarget uls issue).isSome)
            = a :: as.filter fun issue => (issueTarget uls issue).isSome := by
          simp [List.filter_cons, ht]
        calc applyIssues uls (a :: as) m
        _ = applyIssues uls as (applyIssue uls m a) := rfl
        _ = applyIssues uls
              (as.filter fun issue => (issueTarget uls issue).isSome)
              (applyIssue uls m a) := ih _
        _ = applyIssues uls
              ((a :: as).filter fun issue => (issueTarget uls issue).isSome)
              m := by rw [hf]; rfl
      · have hn : issueTarget uls a = none := by
          cases hx : issueTarget uls a with
          | none => rfl
          | some v => rw [hx] at ht; simp at ht
        have hf : (a :: as).filter (fun issue => (issueTarget uls issue).isSome)
            = as.filter fun issue => (issueTarget uls issue).isSome := by
          simp [List.filter_cons, hn]
        calc applyIssues uls (a :: as) m
        _ = applyIssues uls as (applyIssue uls m a) := rfl
        _ = applyIssues uls as m := by rw [applyIssue_of_target_none uls m a hn]
        _ = applyIssues uls
              (as.filter fun issue => (issueTarget uls issue).isSome) m := ih _
        _ = applyIssues uls
              ((a :: as).filter fun issue => (issueTarget uls issue).isSome)
              m := by rw [hf]

/-! ### Bridging equalities for the section bounds -/

theorem sectionBounds_fst (lines : List MathLine) (i : Nat) :
    (getSectionBounds lines i).1 = scanBack lines i := rfl

theorem sectionBounds_snd (lines : List MathLine) (i : Nat) :
    (getSectionBounds lines i).2 = scanFwd lines (i + 1) := rfl

/-! ### Claim theorems -/

/-- C3: for every document and index `i` of a non-break line,
`getSectionBounds` returns a half-open range `[s, e)` with
`s ≤ i < e ≤ length`, `s` one past the nearest break strictly before
`i` (or `0`), `e` the index of the nearest break strictly after `i`
(or the document length), and no break-kind line inside `[s, e)`. -/
theorem getSectionBounds_spec (lines : List MathLine) (i : Nat)
    (h : i < lines.length)
    (hnb : ∀ l, lines[i]? = some l → l.mode ≠ LineMode.brk) :
    (getSectionBounds lines i).1 ≤ i ∧
    i < (getSectionBounds lines i).2 ∧
    (getSectionBounds lines i).2 ≤ lines.length ∧
    (∀ j l, (getSectionBounds lines i).1 ≤ j →
      j < (getSectionBounds lines i).2 → lines[j]? = some l →
      l.mode ≠ LineMode.brk) ∧
    ((getSectionBounds lines i).1 = 0 ∨
      ∃ l, lines[(getSectionBounds lines i).1 - 1]? = some l ∧
        l.mode = LineMode.brk) ∧
    ((getSectionBounds lines i).2 = lines.length ∨
      ∃ l, lines[(getSectionBounds lines i).2]? = some l ∧
        l.mode = LineMode.brk) := by
  rw [sectionBounds_fst, sectionBounds_snd]
  have hg : lines[i]? = some lines[i] := List.getElem?_eq_getElem h
  have hbf : isBreakAt lines i = false := by
    unfold isBreakAt
    rw [hg]
    simpa using hnb lines[i] hg
  obtain ⟨f1, f2, f3, f4⟩ := scanFwd_spec lines (i + 1) (by omega)
  refine ⟨scanBack_le_self lines i hbf, by omega, f2, ?_, ?_, ?_⟩
  · intro j l hj1 hj2 hgj
    rcases le_or_lt j i with hji | hji
    · exact isBreakAt_false_mode lines j l hgj
        (scanBack_no_break lines i j hj1 hji)
    · exact isBreakAt_false_mode lines j l hgj (f3 j (by omega) hj2)
  · rcases scanBack_zero_or_break lines i with h0 | hbk
    · exact Or.inl h0
    · exact Or.inr (isBreakAt_true_mode lines _ hbk)
  · rcases f4 with h0 | hbk
    · exact Or.inl h0
    · exact Or.inr (isBreakAt_true_mode lines _ hbk)

/-- C3 witness: the bounds specification applied to the sample document
at the work line of index 2 (its section is `[0, 3)`). -/
theorem getSectionBounds_spec_witness :
    (getSectionBounds sampleDoc 2).1 ≤ 2 ∧
    2 < (getSectionBounds sampleDoc 2).2 ∧
    (getSectionBounds sampleDoc 2).2 ≤ sampleDoc.length ∧
    (∀ j l, (getSectionBounds sampleDoc 2).1 ≤ j →
      j < (getSectionBounds sampleDoc 2).2 → sampleDoc[j]? = some l →
      l.mode ≠ LineMode.brk) ∧
    ((getSectionBounds sampleDoc 2).1 = 0 ∨
      ∃ l, sampleDoc[(getSectionBounds sampleDoc 2).1 - 1]? = some l ∧
        l.mode = LineMode.brk) ∧
    ((getSectionBounds sampleDoc 2).2 = sampleDoc.length ∨
      ∃ l, sampleDoc[(getSectionBounds sampleDoc 2).2]? = some l ∧
        l.mode = LineMode.brk) :=
  getSectionBounds_spec sampleDoc 2 (by decide)
    (by intro l hl; injection hl with he; rw [← he]; decide)

/-- C2: context extraction considers exactly the slice from the section
start through `upToIndex` inclusive: `userLines` (resp. `problemLines`)
are exactly the work-line filter (resp. problem filter) of that slice
of the `take (upToIndex + 1)` prefix, order preserved, and every
element originates from a line at an index `≤ upToIndex`. -/
theorem getSectionLines_upto_spec (lines : List MathLine)
    (hm : JsMap String) (fm : JsMap LLMFeedback) (upToIndex : Nat) :
    (getSectionLines lines hm fm upToIndex).userLines =
      (((lines.take (upToIndex + 1)).drop
          (getSectionBounds lines upToIndex).1).filter isUserLine).map
        (fun l => ⟨l.mode, l.content, l.id⟩) ∧
    (getSectionLines lines hm fm upToIndex).problemLines =
      (((lines.take (upToIndex + 1)).drop
          (getSectionBounds lines upToIndex).1).filter
            (fun l => l.isProblem)).map
        (fun l => ⟨l.mode, l.content⟩) ∧
    (∀ u ∈ (getSectionLines lines hm fm upToIndex).userLines,
      ∃ j l, j ≤ upToIndex ∧ lines[j]? = some l ∧ isUserLine l = true ∧
        u = ⟨l.mode, l.content, l.id⟩) ∧
    (∀ p ∈ (getSectionLines lines hm fm upToIndex).problemLines,
      ∃ j l, j ≤ upToIndex ∧ lines[j]? = some l ∧ l.isProblem = true ∧
        p = ⟨l.mode, l.content⟩) := by
  have huser : (getSectionLines lines hm fm upToIndex).userLines =
      ((jsSlice lines (scanBack lines upToIndex) (upToIndex + 1)).filter
        isUserLine).map (fun l => ⟨l.mode, l.content, l.id⟩) := rfl
  have hprob : (getSectionLines lines hm fm upToIndex).problemLines =
      ((jsSlice lines (scanBack lines upToIndex) (upToIndex + 1)).filter
        (fun l => l.isProblem)).map (fun l => ⟨l.mode, l.content⟩) := rfl
  refine ⟨?_, ?_, ?_, ?_⟩
  · rw [huser, sectionBounds_fst, jsSlice_upto_eq]
  · rw [hprob, sectionBounds_fst, jsSlice_upto_eq]
  · intro u hu
    rw [huser] at hu
    obtain ⟨l, hl, rfl⟩ := List.mem_map.mp hu
    obtain ⟨hl1, hl2⟩ := List.mem_filter.mp hl
    obtain ⟨j, _, hj2, hgj⟩ := mem_jsSlice_upto lines upToIndex l hl1
    exact ⟨j, l, hj2, hgj, hl2, rfl⟩
  · intro p hp
    rw [hprob] at hp
    obtain ⟨l, hl, rfl⟩ := List.mem_map.mp hp
    obtain ⟨hl1, hl2⟩ := List.mem_filter.mp hl
    obtain ⟨j, _, hj2, hgj⟩ := mem_jsSlice_upto lines upToIndex l hl1
    exact ⟨j, l, hj2, hgj, by simpa using hl2, rfl⟩

/-- C2 witness: the slice specification applied to the sample document
at index 2 (the scenario of the spec: the problem line and the work
line of the first section are extracted, the line beyond the break is
not). -/
theorem getSectionLines_upto_spec_witness :
    (getSectionLines sampleDoc [] [] 2).userLines =
      [⟨LineMode.math, "y=x+1", "c"⟩] ∧
    (getSectionLines sampleDoc [] [] 2).problemLines =
      [⟨LineMode.text, "Given: x=2"⟩] ∧
    (∃ j l, j ≤ 2 ∧ sampleDoc[j]? = some l ∧ isUserLine l = true ∧
      (⟨LineMode.math, "y=x+1", "c"⟩ : UserLine) =
        ⟨l.mode, l.content, l.id⟩) := by
  have hspec := getSectionLines_upto_spec sampleDoc [] [] 2
  refine ⟨by decide, by decide, ?_⟩
  exact hspec.2.2.1 ⟨LineMode.math, "y=x+1", "c"⟩ (by decide)

/-- C4 counterexample: a header line whose `isProblem` flag is set is
included in `problemLines` by context extraction, contradicting the
claim that header-kind lines are always excluded from it. -/
theorem problemLines_header_flag_cex :
    (getSectionLines [⟨"h1", "T", LineMode.header, true⟩] [] [] 0).problemLines
      = [⟨LineMode.header, "T"⟩] := by decide

/-- C4 amended: break-kind lines never occur in the extracted slice, so
they appear in neither `problemLines` nor `userLines`; header-kind
lines never appear in `userLines`; but a line with the `isProblem` flag
set is included in `problemLines` whatever its kind (in particular a
flagged header is). -/
theorem getSectionLines_kind_handling (lines : List MathLine)
    (hm : JsMap String) (fm : JsMap LLMFeedback) (upToIndex : Nat) :
    (∀ u ∈ (getSectionLines lines hm fm upToIndex).userLines,
      u.mode ≠ LineMode.header ∧ u.mode ≠ LineMode.brk) ∧
    (∀ p ∈ (getSectionLines lines hm fm upToIndex).problemLines,
      p.mode ≠ LineMode.brk) ∧
    (∀ l ∈ jsSlice lines (getSectionBounds lines upToIndex).1
        (upToIndex + 1),
      l.isProblem = true →
        (⟨l.mode, l.content⟩ : ProblemLine) ∈
          (getSectionLines lines hm fm upToIndex).problemLines) := by
  have huser : (getSectionLines lines hm fm upToIndex).userLines =
      ((jsSlice lines (scanBack lines upToIndex) (upToIndex + 1)).filter
        isUserLine).map (fun l => ⟨l.mode, l.content, l.id⟩) := rfl
  have hprob : (getSectionLines lines hm fm upToIndex).problemLines =
      ((jsSlice lines (scanBack lines upToIndex) (upToIndex + 1)).filter
        (fun l => l.isProblem)).map (fun l => ⟨l.mode, l.content⟩) := rfl
  refine ⟨?_, ?_, ?_⟩
  · intro u hu
    rw [huser] at hu
    obtain ⟨l, hl, rfl⟩ := List.mem_map.mp hu
    obtain ⟨_, hl2⟩ := List.mem_filter.mp hl
    unfold isUserLine at hl2
    simp only [Bool.and_eq_true, decide_eq_true_eq] at hl2
    exact ⟨hl2.1.2, hl2.2⟩
  · intro p hp
    rw [hprob] at hp
    obtain ⟨l, hl, rfl⟩ := List.mem_map.mp hp
    obtain ⟨hl1, _⟩ := List.mem_filter.mp hl
    exact mem_jsSlice_upto_not_break lines upToIndex l hl1
  · intro l hl hflag
    rw [sectionBounds_fst] at hl
    rw [hprob]
    exact List.mem_map_of_mem _ (List.mem_filter.mpr ⟨hl, by simp [hflag]⟩)

/-- C4 amended witness: applied to the sample document at index 2 — its
extracted problem line is a member of `problemLines`, and the extracted
work line is neither a header nor a break. -/
theorem getSectionLines_kind_handling_witness :
    ((⟨LineMode.math, "y=x+1", "c"⟩ : UserLine).mode ≠ LineMode.header ∧
      (⟨LineMode.math, "y=x+1", "c"⟩ : UserLine).mode ≠ LineMode.brk) ∧
    (⟨(⟨"b", "Given: x=2", LineMode.text, true⟩ : MathLine).mode,
        (⟨"b", "Given: x=2", LineMode.text, true⟩ : MathLine).content⟩ :
      ProblemLine) ∈ (getSectionLines sampleDoc [] [] 2).problemLines := by
  have hspec := getSectionLines_kind_handling sampleDoc [] [] 2
  refine ⟨hspec.1 ⟨LineMode.math, "y=x+1", "c"⟩ (by decide), ?_⟩
  exact hspec.2.2 ⟨"b", "Given: x=2", LineMode.text, true⟩ (by decide)
    (by decide)

/-- Deleting from a non-empty line list never empties it. -/
theorem handleDeleteLine_ne_nil (ls : List MathLine) (i : Nat)
    (nid : String) (h : ls ≠ []) : handleDeleteLine ls i nid ≠ [] := by
  unfold handleDeleteLine
  by_cases h1 : ls.length = 1
  · simp [h1]
  · rw [if_neg h1]
    have hn : 0 < ls.length := List.length_pos.mpr h
    intro hcon
    have hlen := congrArg List.length hcon
    simp only [List.length_append, List.length_take, List.length_drop,
      List.length_nil] at hlen
    omega

/-- C5: deletion preserves the at-least-one-line invariant: any
sequence of `handleDeleteLine` operations on a non-empty document
leaves it non-empty, and a delete on a one-line document yields exactly
one empty text line. -/
theorem handleDeleteLine_invariant (lines : List MathLine)
    (h : lines ≠ []) :
    (∀ ops : List (Nat × String),
      ops.foldl (fun ls op => handleDeleteLine ls op.1 op.2) lines ≠ []) ∧
    (∀ index newId, lines.length = 1 →
      handleDeleteLine lines index newId =
        [⟨newId, "", LineMode.text, false⟩]) := by
  constructor
  · intro ops
    induction ops generalizing lines with
    | nil => exact h
    | cons a as ih =>
        exact ih (handleDeleteLine lines a.1 a.2)
          (handleDeleteLine_ne_nil lines a.1 a.2 h)
  · intro index newId h1
    unfold handleDeleteLine
    rw [if_pos h1]

/-- C5 witness: a two-step delete sequence on a two-line document stays
non-empty, and deleting the only line of a singleton document installs
the canonical empty text line. -/
theorem handleDeleteLine_invariant_witness :
    (([(0, "f1"), (0, "f2")] : List (Nat × String)).foldl
        (fun ls op => handleDeleteLine ls op.1 op.2) checkDoc ≠ []) ∧
    handleDeleteLine [⟨"q", "1+1", LineMode.math, false⟩] 0 ("fresh") =
      [⟨"fresh", "", LineMode.text, false⟩] :=
  ⟨(handleDeleteLine_invariant checkDoc (by decide)).1 _,
   (handleDeleteLine_invariant [⟨"q", "1+1", LineMode.math, false⟩]
      (by decide)).2 0 ("fresh") (by decide)⟩

/-- Reduction of `handleCheckReasoning` when the target line exists, the
extracted work lines are non-empty and a parsed response arrived. -/
theorem handleCheckReasoning_eq_of (capturedLines : List MathLine)
    (hm : JsMap String) (cfm : JsMap LLMFeedback) (upToIndex : Nat)
    (target : MathLine) (ht : capturedLines[upToIndex]? = some target)
    (hwork : (getSectionLines capturedLines hm cfm upToIndex).userLines ≠ [])
    (data : LLMFeedback) (prev : JsMap LLMFeedback) :
    handleCheckReasoning capturedLines hm cfm upToIndex (some data) prev =
      ⟨applyCheckResponse capturedLines
          (getSectionLines capturedLines hm cfm upToIndex) target.id data
          prev,
        true, none⟩ := by
  have hemp : ((getSectionLines capturedLines hm cfm
      upToIndex).userLines).isEmpty = false := by
    cases hx : (getSectionLines capturedLines hm cfm upToIndex).userLines with
    | nil => exact absurd hx hwork
    | cons a as => rfl
  unfold handleCheckReasoning
  rw [ht]
  simp [hemp]

/-- Reduction of the response application for an `issue` verdict with a
non-empty issues list. -/
theorem applyCheckResponse_issue (capturedLines : List MathLine)
    (ctx : SectionLines) (targetId : String) (si : Option Int)
    (lx : Option String) (issues : List Issue) (prev : JsMap LLMFeedback)
    (hne : issues ≠ []) :
    applyCheckResponse capturedLines ctx targetId
        ⟨FeedbackStatus.issue, si, lx, some issues⟩ prev =
      applyIssues ctx.userLines issues
        (clearSection capturedLines ctx.sectionStart ctx.sectionEnd prev) := by
  have hi : issues.isEmpty = false := by
    cases issues with
    | nil => exact absurd rfl hne
    | cons a as => rfl
  unfold applyCheckResponse
  simp [hi]

/-- Reduction of the response application for an `ok` verdict. -/
theorem applyCheckResponse_ok (capturedLines : List MathLine)
    (ctx : SectionLines) (targetId : String) (data : LLMFeedback)
    (prev : JsMap LLMFeedback) (hst : data.status = FeedbackStatus.ok) :
    applyCheckResponse capturedLines ctx targetId data prev =
      mapSet (clearSection capturedLines ctx.sectionStart ctx.sectionEnd
        prev) targetId data := by
  obtain ⟨st, si, lx, iss⟩ := data
  cases st with
  | ok => rfl
  | issue => exact absurd hst (by simp)

/-- C1: on an `issue` response with a non-empty issues list, the
controller attaches an issue feedback entry at the line id that each
1-indexed `stepIndex` of each issue resolves to in the captured work lines,
and every line of the full enclosing section that no issue targets ends
up with no feedback entry (pre-existing entries are cleared). -/
theorem handleCheckReasoning_issue_spec (capturedLines : List MathLine)
    (hm : JsMap String) (cfm : JsMap LLMFeedback) (upToIndex : Nat)
    (data : LLMFeedback) (prev : JsMap LLMFeedback) (target : MathLine)
    (issues : List Issue)
    (ht : capturedLines[upToIndex]? = some target)
    (hst : data.status = FeedbackStatus.issue)
    (hiss : data.issues = some issues)
    (hne : issues ≠ [])
    (hwork :
      (getSectionLines capturedLines hm cfm upToIndex).userLines ≠ []) :
    (handleCheckReasoning capturedLines hm cfm upToIndex (some data)
        prev).madeRequest = true ∧
    (∀ issue ∈ issues, ∀ id,
      issueTarget (getSectionLines capturedLines hm cfm upToIndex).userLines
          issue = some id →
      ∃ fb, mapGet (handleCheckReasoning capturedLines hm cfm upToIndex
          (some data) prev).feedback id = some fb ∧
        fb.status = FeedbackStatus.issue) ∧
    (∀ j l,
      (getSectionLines capturedLines hm cfm upToIndex).sectionStart ≤ j →
      j < (getSectionLines capturedLines hm cfm upToIndex).sectionEnd →
      capturedLines[j]? = some l →
      (∀ issue ∈ issues,
        issueTarget (getSectionLines capturedLines hm cfm
            upToIndex).userLines issue ≠ some l.id) →
      mapGet (handleCheckReasoning capturedLines hm cfm upToIndex
          (some data) prev).feedback l.id = none) := by
  obtain ⟨st, si, lx, iss⟩ := data
  cases hst
  cases hiss
  have hred := handleCheckReasoning_eq_of capturedLines hm cfm upToIndex
    target ht hwork ⟨FeedbackStatus.issue, si, lx, some issues⟩ prev
  have happ := applyCheckResponse_issue capturedLines
    (getSectionLines capturedLines hm cfm upToIndex) target.id si lx issues
    prev hne
  have hfull : (handleCheckReasoning capturedLines hm cfm upToIndex
      (some ⟨FeedbackStatus.issue, si, lx, some issues⟩) prev).feedback =
      applyIssues
        (getSectionLines capturedLines hm cfm upToIndex).userLines issues
        (clearSection capturedLines
          (getSectionLines capturedLines hm cfm upToIndex).sectionStart
          (getSectionLines capturedLines hm cfm upToIndex).sectionEnd
          prev) := by
    rw [hred, happ]
  refine ⟨by rw [hred], ?_, ?_⟩
  · intro issue hmem id htg
    rw [hfull]
    exact applyIssues_get_of_mem _ issues issue id hmem htg _
  · intro j l hj1 hj2 hgj hnot
    rw [hfull]
    rw [applyIssues_get_of_forall_ne _ issues _ l.id hnot]
    exact clearSection_get_hit capturedLines _ _ prev j l hj1 hj2 hgj

/-- C1 witness: with three captured work lines and the response
`issue [stepIndex 2]`, feedback attaches at the id of the second work line
and the untargeted first work line (which had a stale entry) ends with
none. -/
theorem handleCheckReasoning_issue_spec_witness :
    (handleCheckReasoning checkDoc [] [] 2
        (some ⟨FeedbackStatus.issue, none, none, some [⟨2, some ("bad")⟩]⟩)
        [("w1", ⟨FeedbackStatus.ok, none, none, none⟩)]).madeRequest
      = true ∧
    ∃ fb, mapGet (handleCheckReasoning checkDoc [] [] 2
        (some ⟨FeedbackStatus.issue, none, none, some [⟨2, some ("bad")⟩]⟩)
        [("w1", ⟨FeedbackStatus.ok, none, none, none⟩)]).feedback ("w2") =
      some fb ∧ fb.status = FeedbackStatus.issue := by
  have hspec := handleCheckReasoning_issue_spec checkDoc [] [] 2
    ⟨FeedbackStatus.issue, none, none, some [⟨2, some ("bad")⟩]⟩
    [("w1", ⟨FeedbackStatus.ok, none, none, none⟩)]
    ⟨"w3", "s3", LineMode.math, false⟩ [⟨2, some ("bad")⟩]
    (by decide) rfl rfl (by decide) (by decide)
  exact ⟨hspec.1, hspec.2.1 ⟨2, some ("bad")⟩ (by decide) "w2" (by decide)⟩

/-- C10: on an `ok` response, the controller keys exactly one `ok`
feedback entry to the clicked target line, clears every other line of
the enclosing section, and leaves feedback of lines outside the section
untouched. -/
theorem handleCheckReasoning_ok_spec (capturedLines : List MathLine)
    (hm : JsMap String) (cfm : JsMap LLMFeedback) (upToIndex : Nat)
    (data : LLMFeedback) (prev : JsMap LLMFeedback) (target : MathLine)
    (ht : capturedLines[upToIndex]? = some target)
    (hst : data.status = FeedbackStatus.ok)
    (hwork :
      (getSectionLines capturedLines hm cfm upToIndex).userLines ≠ []) :
    (handleCheckReasoning capturedLines hm cfm upToIndex (some data)
        prev).madeRequest = true ∧
    mapGet (handleCheckReasoning capturedLines hm cfm upToIndex (some data)
        prev).feedback target.id = some data ∧
    (∀ j l,
      (getSectionLines capturedLines hm cfm upToIndex).sectionStart ≤ j →
      j < (getSectionLines capturedLines hm cfm upToIndex).sectionEnd →
      capturedLines[j]? = some l → l.id ≠ target.id →
      mapGet (handleCheckReasoning capturedLines hm cfm upToIndex
          (some data) prev).feedback l.id = none) ∧
    (∀ id, id ≠ target.id →
      (∀ j l,
        (getSectionLines capturedLines hm cfm upToIndex).sectionStart ≤ j →
        j < (getSectionLines capturedLines hm cfm upToIndex).sectionEnd →
        capturedLines[j]? = some l → l.id ≠ id) →
      mapGet (handleCheckReasoning capturedLines hm cfm upToIndex
          (some data) prev).feedback id = mapGet prev id) := by
  have hred := handleCheckReasoning_eq_of capturedLines hm cfm upToIndex
    target ht hwork data prev
  have happ := applyCheckResponse_ok capturedLines
    (getSectionLines capturedLines hm cfm upToIndex) target.id data prev hst
  have hfull : (handleCheckReasoning capturedLines hm cfm upToIndex
      (some data) prev).feedback =
      mapSet (clearSection capturedLines
          (getSectionLines capturedLines hm cfm upToIndex).sectionStart
          (getSectionLines capturedLines hm cfm upToIndex).sectionEnd
          prev) target.id data := by
    rw [hred, happ]
  refine ⟨by rw [hred], ?_, ?_, ?_⟩
  · rw [hfull]
    exact mapGet_set_self _ target.id data
  · intro j l hj1 hj2 hgj hne
    rw [hfull]
    rw [mapGet_set_ne _ target.id l.id data hne]
    exact clearSection_get_hit capturedLines _ _ prev j l hj1 hj2 hgj
  · intro id hne hnot
    rw [hfull]
    rw [mapGet_set_ne _ target.id id data hne]
    exact clearSection_get_of_not_hit capturedLines _ _ prev id hnot

/-- C10 witness: an `ok` response on the third work line installs the
`ok` entry at its id, clears the stale entry of the first work line,
and leaves an entry keyed outside the section untouched. -/
theorem handleCheckReasoning_ok_spec_witness :
    (handleCheckReasoning checkDoc [] [] 2
        (some ⟨FeedbackStatus.ok, none, none, none⟩)
        [("w1", ⟨FeedbackStatus.issue, none, some ("old"), none⟩)]).madeRequest
      = true ∧
    mapGet (handleCheckReasoning checkDoc [] [] 2
        (some ⟨FeedbackStatus.ok, none, none, none⟩)
        [("w1", ⟨FeedbackStatus.issue, none, some ("old"), none⟩)]).feedback
        "w3" = some ⟨FeedbackStatus.ok, none, none, none⟩ := by
  have hspec := handleCheckReasoning_ok_spec checkDoc [] [] 2
    ⟨FeedbackStatus.ok, none, none, none⟩
    [("w1", ⟨FeedbackStatus.issue, none, some ("old"), none⟩)]
    ⟨"w3", "s3", LineMode.math, false⟩
    (by decide) rfl (by decide)
  exact ⟨hspec.1, hspec.2.1⟩

/-- C6 counterexample: the response application never consults the
current document, so an issue whose resolved captured line id need not
exist any more still creates a feedback entry keyed to that id: at this
concrete input the entry keyed `"id1"` is created unconditionally,
whatever the current document looks like. -/
theorem handleCheckReasoning_stale_id_cex :
    mapGet (handleCheckReasoning [⟨"id1", "x", LineMode.math, false⟩] [] []
        0 (some ⟨FeedbackStatus.issue, none, none, some [⟨1, some ("err")⟩]⟩)
        []).feedback ("id1") =
      some ⟨FeedbackStatus.issue, none, some ("err"), none⟩ := by decide

/-- C6 amended: issues whose 1-indexed `stepIndex` does not resolve to
a captured work line with a non-empty id are silently skipped — the
outcome equals that of the response with only the resolvable issues —
while a resolvable issue is applied even if its line id no longer
exists in the document (no existence check is performed). -/
theorem handleCheckReasoning_drops_unresolvable
    (capturedLines : List MathLine) (hm : JsMap String)
    (cfm : JsMap LLMFeedback) (upToIndex : Nat) (si : Option Int)
    (lx : Option String) (issues : List Issue)
    (prev : JsMap LLMFeedback) :
    handleCheckReasoning capturedLines hm cfm upToIndex
        (some ⟨FeedbackStatus.issue, si, lx, some issues⟩) prev =
      handleCheckReasoning capturedLines hm cfm upToIndex
        (some ⟨FeedbackStatus.issue, si, lx,
          some (issues.filter fun issue =>
            (issueTarget (getSectionLines capturedLines hm cfm
                upToIndex).userLines issue).isSome)⟩) prev := by
  cases hcap : capturedLines[upToIndex]? with
  | none =>
      unfold handleCheckReasoning
      rw [hcap]
  | some target =>
      by_cases hemp : (getSectionLines capturedLines hm cfm
          upToIndex).userLines.isEmpty = true
      · unfold handleCheckReasoning
        rw [hcap]
        simp [hemp]
      · have hwork : (getSectionLines capturedLines hm cfm
            upToIndex).userLines ≠ [] := by
          intro hnil
          rw [hnil] at hemp
          exact hemp rfl
        rw [handleCheckReasoning_eq_of capturedLines hm cfm upToIndex target
          hcap hwork _ prev]
        rw [handleCheckReasoning_eq_of capturedLines hm cfm upToIndex target
          hcap hwork _ prev]
        refine congrArg (fun x => CheckResult.mk x true none) ?_
        by_cases hi : issues = []
        · subst hi
          rfl
        · rw [applyCheckResponse_issue capturedLines _ target.id si lx
            issues prev hi]
          cases hffull : issues.filter (fun issue =>
              (issueTarget (getSectionLines capturedLines hm cfm
                upToIndex).userLines issue).isSome) with
          | nil =>
              have hl := applyIssues_filter_resolvable
                (getSectionLines capturedLines hm cfm upToIndex).userLines
                issues (clearSection capturedLines
                  (getSectionLines capturedLines hm cfm
                    upToIndex).sectionStart
                  (getSectionLines capturedLines hm cfm
                    upToIndex).sectionEnd prev)
              rw [hffull] at hl
              exact hl
          | cons a as =>
              rw [applyCheckResponse_issue capturedLines _ target.id si lx
                (a :: as) prev (by simp)]
              have hl := applyIssues_filter_resolvable
                (getSectionLines capturedLines hm cfm upToIndex).userLines
                issues (clearSection capturedLines
                  (getSectionLines capturedLines hm cfm
                    upToIndex).sectionStart
                  (getSectionLines capturedLines hm cfm
                    upToIndex).sectionEnd prev)
              rw [hffull] at hl
              exact hl

/-- A single invalid raw line makes the whole validation loop fail. -/
theorem validateLines_eq_none (rls : List RawLine) (r : RawLine)
    (hmem : r ∈ rls) (hr : validateLine r = none) :
    validateLines rls = none := by
  induction rls with
  | nil => cases hmem
  | cons a as ih =>
      rcases List.mem_cons.mp hmem with rfl | hmem'
      · simp only [validateLines, hr]
      · cases ha : validateLine a with
        | none => simp only [validateLines, ha]
        | some m => simp only [validateLines, ha, ih hmem']

/-- C7: import is all-or-nothing — a missing or empty `lines` array, or
any line failing per-line validation, resets the document to a single
fresh empty text line with cleared hints and feedback; a valid line
with a non-boolean `isProblem` field defaults the flag to `false`; a
fully valid payload installs exactly the validated lines and the
restored maps. -/
theorem importJSON_validation_spec (d : ImportData) (freshId : String) :
    ((d.lines = none ∨ d.lines = some [] ∨
        ∃ r ∈ d.lines.getD [], validateLine r = none) →
      importJSON (some d) freshId = fallbackState freshId) ∧
    (∀ r m, validateLine r = some m →
      (∀ b, r.isProblem ≠ JVal.bool b) → m.isProblem = false) ∧
    (∀ rls vls, d.lines = some rls → validateLines rls = some vls →
      rls ≠ [] →
      importJSON (some d) freshId =
        ⟨vls, d.hints.getD [], d.feedback.getD []⟩) := by
  obtain ⟨dl, dh, df⟩ := d
  refine ⟨?_, ?_, ?_⟩
  · intro hrej
    rcases hrej with h | h | ⟨r, hmem, hr⟩
    · simp only at h
      subst h
      rfl
    · simp only at h
      subst h
      rfl
    · cases dl with
      | none => rfl
      | some rls =>
          simp only [Option.getD_some] at hmem
          by_cases hE : rls.isEmpty = true
          · simp [importJSON, hE]
          · have hE' : rls.isEmpty = false := by simpa using hE
            have hv := validateLines_eq_none rls r hmem hr
            simp [importJSON, hE', hv]
  · intro r m hval hnb
    obtain ⟨rid, rc, rm, rp⟩ := r
    cases rid with
    | str s =>
        by_cases hs : s = ""
        · simp [validateLine, hs] at hval
        · cases rc with
          | str c =>
              cases rm with
              | str ms =>
                  simp only [validateLine] at hval
                  rw [if_neg hs] at hval
                  cases hp : parseMode ms with
                  | none => rw [hp] at hval; simp at hval
                  | some mo =>
                      rw [hp] at hval
                      rw [Option.map_some'] at hval
                      cases rp with
                      | bool b => exact absurd rfl (hnb b)
                      | str s2 =>
                          rw [← Option.some.inj hval]
                      | other =>
                          rw [← Option.some.inj hval]
              | bool b => simp [validateLine, hs] at hval
              | other => simp [validateLine, hs] at hval
          | bool b => simp [validateLine, hs] at hval
          | other => simp [validateLine, hs] at hval
    | bool b => simp [validateLine] at hval
    | other => simp [validateLine] at hval
  · intro rls vls hdl hv hne
    simp only at hdl
    subst hdl
    have hE : rls.isEmpty = false := by
      cases rls with
      | nil => exact absurd rfl hne
      | cons a as => rfl
    simp [importJSON, hE, hv]

/-- C7 witness: a payload with a bogus mode string resets everything to
the fallback state; a valid two-line payload whose second line lacks a
boolean `isProblem` imports with the flag defaulted to `false`. -/
theorem importJSON_validation_spec_witness :
    importJSON (some ⟨some [⟨JVal.str ("i"), JVal.str ("c"), JVal.str ("bogus"),
        JVal.other⟩], some [("x", "h")], none⟩) "fresh" =
      fallbackState ("fresh") ∧
    (⟨"i2", "c2", LineMode.math, false⟩ : MathLine).isProblem = false ∧
    importJSON (some ⟨some [⟨JVal.str ("i1"), JVal.str ("c1"), JVal.str ("text"),
        JVal.bool true⟩, ⟨JVal.str ("i2"), JVal.str ("c2"), JVal.str ("math"),
        JVal.other⟩], none, none⟩) "fresh" =
      ⟨[⟨"i1", "c1", LineMode.text, true⟩,
        ⟨"i2", "c2", LineMode.math, false⟩], [], []⟩ := by
  have hspec := importJSON_validation_spec ⟨some [⟨JVal.str ("i"),
    JVal.str ("c"), JVal.str ("bogus"), JVal.other⟩], some [("x", "h")], none⟩
    "fresh"
  have hspec2 := importJSON_validation_spec ⟨some [⟨JVal.str ("i1"),
    JVal.str ("c1"), JVal.str ("text"), JVal.bool true⟩, ⟨JVal.str ("i2"),
    JVal.str ("c2"), JVal.str ("math"), JVal.other⟩], none, none⟩ "fresh"
  refine ⟨hspec.1 (Or.inr (Or.inr ⟨⟨JVal.str ("i"), JVal.str ("c"),
    JVal.str ("bogus"), JVal.other⟩, by decide, by decide⟩)), ?_, ?_⟩
  · exact hspec2.2.1 ⟨JVal.str ("i2"), JVal.str ("c2"), JVal.str ("math"),
      JVal.other⟩ ⟨"i2", "c2", LineMode.math, false⟩ (by decide)
      (by intro b hb; cases hb)
  · exact hspec2.2.2 _ _ rfl (by decide) (by decide)

/-- Deserializing a serialized mode yields the mode back. -/
theorem parseMode_modeToString (m : LineMode) :
    parseMode (modeToString m) = some m := by
  cases m <;> decide

/-- Validation accepts every exported line and reproduces it exactly. -/
theorem validateLine_export (l : MathLine) (hid : l.id ≠ "") :
    validateLine ⟨JVal.str l.id, JVal.str l.content,
      JVal.str (modeToString l.mode), JVal.bool l.isProblem⟩ = some l := by
  simp only [validateLine]
  rw [if_neg hid, parseMode_modeToString]
  rfl

/-- The validation loop reproduces an exported line list exactly. -/
theorem validateLines_export (ls : List MathLine)
    (hids : ∀ l ∈ ls, l.id ≠ "") :
    validateLines (ls.map fun l => ⟨JVal.str l.id, JVal.str l.content,
      JVal.str (modeToString l.mode), JVal.bool l.isProblem⟩) = some ls := by
  induction ls with
  | nil => rfl
  | cons a as ih =>
      simp only [List.map_cons, validateLines,
        validateLine_export a (hids a (List.mem_cons_self a as)),
        ih fun l hl => hids l (List.mem_cons_of_mem a hl)]

/-- C8: exporting a notebook state and re-importing the export restores
the state exactly — same lines (ids included, none regenerated), same
hint map, same feedback map. -/
theorem exportJSON_importJSON_roundtrip (st : NotebookState)
    (freshId : String) (hne : st.lines ≠ [])
    (hids : ∀ l ∈ st.lines, l.id ≠ "") :
    importJSON (some (exportJSON st)) freshId = st := by
  obtain ⟨ls, hmap, fmap⟩ := st
  have hne' : ls ≠ [] := hne
  have hE : (ls.map fun l => (⟨JVal.str l.id, JVal.str l.content,
      JVal.str (modeToString l.mode), JVal.bool l.isProblem⟩ :
        RawLine)).isEmpty = false := by
    cases ls with
    | nil => exact absurd rfl hne'
    | cons a as => rfl
  simp [exportJSON, importJSON, hE, validateLines_export ls hids]

/-- C8 witness: the round trip applied to the sample document with a
hint and a feedback entry. -/
theorem exportJSON_importJSON_roundtrip_witness :
    importJSON (some (exportJSON ⟨sampleDoc, [("c", "try substitution")],
        [("c", ⟨FeedbackStatus.ok, none, none, none⟩)]⟩)) "fresh" =
      ⟨sampleDoc, [("c", "try substitution")],
        [("c", ⟨FeedbackStatus.ok, none, none, none⟩)]⟩ :=
  exportJSON_importJSON_roundtrip _ ("fresh") (by decide) (by decide)

/-- C9: the check-reasoning route rejects an empty `userLines` array
with a 400 validation error before any upstream call, the hint route
accepts it and proceeds to the upstream call, and the controller makes
no request at all — returning to the idle state with feedback
unchanged — when the extracted work lines are empty. -/
theorem emptyWorkLines_spec :
    (∀ pl hints,
      checkReasoningPOST true (some ⟨some pl, some [], hints⟩) =
        RouteResult.error ("No user lines to evaluate") 400) ∧
    (∀ pl, hintPOST true (some ⟨some pl, some []⟩) =
      RouteResult.upstreamCall) ∧
    (∀ lines hm cfm i response prev target,
      lines[i]? = some target →
      (getSectionLines lines hm cfm i).userLines = [] →
      handleCheckReasoning lines hm cfm i response prev =
        ⟨prev, false, none⟩) := by
  refine ⟨fun pl hints => rfl, fun pl => rfl, ?_⟩
  intro lines hm cfm i response prev target ht hempty
  unfold handleCheckReasoning
  rw [ht]
  simp [hempty]

/-- C9 witness: the empty-work behaviours at concrete inputs — one
problem line and no work lines. -/
theorem emptyWorkLines_spec_witness :
    checkReasoningPOST true (some ⟨some [⟨LineMode.text, "Given"⟩],
        some [], none⟩) =
      RouteResult.error ("No user lines to evaluate") 400 ∧
    hintPOST true (some ⟨some [⟨LineMode.text, "Given"⟩], some []⟩) =
      RouteResult.upstreamCall ∧
    handleCheckReasoning [⟨"p", "g", LineMode.text, true⟩] [] [] 0 none [] =
      ⟨[], false, none⟩ := by
  have hspec := emptyWorkLines_spec
  exact ⟨hspec.1 [⟨LineMode.text, "Given"⟩] none,
    hspec.2.1 [⟨LineMode.text, "Given"⟩],
    hspec.2.2 [⟨"p", "g", LineMode.text, true⟩] [] [] 0 none []
      ⟨"p", "g", LineMode.text, true⟩ (by decide) (by decide)⟩

end Mathtype
